import Mathlib

/-!
Verification of the `strings-utils-stylus` library: conversion of 256-bit
unsigned integers (`U256`, modelled as `Nat` values below `2 ^ 256`) to
decimal and hexadecimal strings, following `src/lib.rs`.

Strings are modelled as `List Char`; the byte buffers (`Vec<u8>` in the
source) as `List Nat`.  The fallible `String::from_utf8` step is modelled
by `string_from_utf8`, which succeeds exactly on lists of ASCII bytes
(a restriction of real UTF-8 validity; every byte the library produces is
ASCII, and a model that fails more often than the real check only
strengthens the no-failure theorems proved below).
-/

namespace StringsUtils

/-- The digit-extraction loop of `to_string` (`src/lib.rs` lines 37-41):
repeatedly push the byte `b'0' + (v % 10)` and divide `v` by 10 until zero.
The resulting byte list is least-significant-digit first, exactly as the
`digits` vector before the `reverse()` call. -/
def decBytes (v : Nat) : List Nat :=
  if h : v = 0 then []
  else (48 + v % 10) :: decBytes (v / 10)
termination_by v
decreasing_by exact Nat.div_lt_self (Nat.pos_of_ne_zero h) (by norm_num)

/-- The hex-digit-to-byte mapping shared by `to_hex_string` and
`to_hex_string_fixed`: digits 0-9 map to `b'0' + d`, digits 10-15 to
`b'a' + (d - 10)`. -/
def hexDigitByte (d : Nat) : Nat :=
  if d < 10 then 48 + d else 97 + (d - 10)

/-- The digit-extraction loop of `to_hex_string` and `to_hex_string_fixed`
(`src/lib.rs` lines 78-88 and 127-137): push `hexDigitByte (v % 16)` and
divide by 16 until zero; least-significant first. -/
def hexBytes (v : Nat) : List Nat :=
  if h : v = 0 then []
  else hexDigitByte (v % 16) :: hexBytes (v / 16)
termination_by v
decreasing_by exact Nat.div_lt_self (Nat.pos_of_ne_zero h) (by norm_num)

/-- Model of `String::from_utf8` on the ASCII fragment: succeeds iff every
byte is ASCII (`< 128`), returning the corresponding characters. -/
def string_from_utf8 (bs : List Nat) : Option (List Char) :=
  if bs.all (fun b => decide (b < 128)) then some (bs.map Char.ofNat) else none

/-- `to_string` from `src/lib.rs` (lines 29-46): `"0"` for zero, otherwise
the reversed decimal digit buffer interpreted as UTF-8.  `none` models the
`expect` panic. -/
def to_string (value : Nat) : Option (List Char) :=
  if value = 0 then some ['0']
  else string_from_utf8 (decBytes value).reverse

/-- `to_hex_string` from `src/lib.rs` (lines 70-93): `"0x0"` for zero,
otherwise `"0x"` followed by the reversed hex digit buffer interpreted as
UTF-8. -/
def to_hex_string (value : Nat) : Option (List Char) :=
  if value = 0 then some ['0', 'x', '0']
  else (string_from_utf8 (hexBytes value).reverse).map (fun s => '0' :: 'x' :: s)

/-- `to_hex_string_fixed` from `src/lib.rs` (lines 119-150): `"0x"` plus
`length` zeros for zero; otherwise the reversed hex digit buffer, left-padded
with `'0'` up to `length` when shorter (`format!("{:0>width$}", ..)`), after
`"0x"`. -/
def to_hex_string_fixed (value : Nat) (length : Nat) : Option (List Char) :=
  if value = 0 then some ('0' :: 'x' :: List.replicate length '0')
  else (string_from_utf8 (hexBytes value).reverse).map (fun s =>
    '0' :: 'x' :: (if s.length < length then List.replicate (length - s.length) '0' ++ s else s))

/-! ### Specification-side definitions -/

/-- Parse a decimal digit string (most significant first) back to a number:
the spec's "parsing it back as a decimal integer". -/
def parseDec (s : List Char) : Nat :=
  s.foldl (fun a c => 10 * a + (c.toNat - 48)) 0

/-- Value of one hex character, lowercase letters and digits. -/
def hexCharVal (c : Char) : Nat :=
  if 97 ≤ c.toNat then c.toNat - 87 else c.toNat - 48

/-- Parse a hex digit string (most significant first) back to a number:
the spec's "parsing it back as hexadecimal". -/
def parseHex (s : List Char) : Nat :=
  s.foldl (fun a c => 16 * a + hexCharVal c) 0

/-- `c` is an ASCII decimal digit `'0'`-`'9'`. -/
def isDecDigitChar (c : Char) : Prop := 48 ≤ c.toNat ∧ c.toNat ≤ 57

/-- `c` is an ASCII lowercase hex digit `'0'`-`'9'` or `'a'`-`'f'`. -/
def isHexDigitChar (c : Char) : Prop :=
  (48 ≤ c.toNat ∧ c.toNat ≤ 57) ∨ (97 ≤ c.toNat ∧ c.toNat ≤ 102)

/-- The sixteen byte values `b'0'`..`b'9'`, `b'a'`..`b'f'` — the only bytes
the library ever pushes into a digit buffer. -/
def hexCharset : List Nat :=
  [48, 49, 50, 51, 52, 53, 54, 55, 56, 57, 97, 98, 99, 100, 101, 102]

/-- `s` matches `^0$|^[1-9][0-9]*$`: a decimal numeral with no leading
zero unless it is exactly `"0"`. -/
def decNumeral (s : List Char) : Prop :=
  (∀ c ∈ s, isDecDigitChar c) ∧ s ≠ [] ∧ (s = ['0'] ∨ s.head? ≠ some '0')

/-- `s` matches `^0$|^[1-9a-f][0-9a-f]*$`: a lowercase hex numeral with no
leading zero unless it is exactly `"0"`. -/
def hexNumeral (s : List Char) : Prop :=
  (∀ c ∈ s, isHexDigitChar c) ∧ s ≠ [] ∧ (s = ['0'] ∨ s.head? ≠ some '0')

/-- The characters `to_string v` successfully returns (proved below to be
the unique successful result). -/
def decString (v : Nat) : List Char :=
  if v = 0 then ['0'] else (decBytes v).reverse.map Char.ofNat

/-- The hex digit characters of `to_hex_string v` after the `"0x"` mark. -/
def hexDigitsString (v : Nat) : List Char :=
  if v = 0 then ['0'] else (hexBytes v).reverse.map Char.ofNat

/-- The digit characters of `to_hex_string_fixed v n` after the `"0x"` mark. -/
def hexFixedDigits (v n : Nat) : List Char :=
  if v = 0 then List.replicate n '0'
  else
    (if ((hexBytes v).reverse.map Char.ofNat).length < n then
      List.replicate (n - ((hexBytes v).reverse.map Char.ofNat).length) '0' ++
        (hexBytes v).reverse.map Char.ofNat
    else (hexBytes v).reverse.map Char.ofNat)

/-- Numeric value of a most-significant-first digit list in base `b`,
mirroring positional reading of the output string. -/
def valMSB (b : Nat) (L : List Nat) : Nat :=
  L.foldl (fun a d => b * a + d) 0

/-- The digit list (most significant first) that the library renders for
`v` in base `b`: `[0]` for zero, else the reversed `Nat.digits`. -/
def renderedDigits (b v : Nat) : List Nat :=
  if v = 0 then [0] else (Nat.digits b v).reverse

/-! ### Bridge lemmas: the digit loops compute `Nat.digits` -/

theorem decBytes_eq_digits (v : Nat) :
    decBytes v = (Nat.digits 10 v).map (fun d => 48 + d) := by
  induction v using Nat.strong_induction_on with
  | _ v ih =>
    by_cases h : v = 0
    · subst h; simp [decBytes]
    · rw [decBytes, dif_neg h,
        Nat.digits_def' (by norm_num : (1 : ℕ) < 10) (Nat.pos_of_ne_zero h), List.map_cons]
      rw [ih _ (Nat.div_lt_self (Nat.pos_of_ne_zero h) (by norm_num))]

theorem hexBytes_eq_digits (v : Nat) :
    hexBytes v = (Nat.digits 16 v).map hexDigitByte := by
  induction v using Nat.strong_induction_on with
  | _ v ih =>
    by_cases h : v = 0
    · subst h; simp [hexBytes]
    · rw [hexBytes, dif_neg h,
        Nat.digits_def' (by norm_num : (1 : ℕ) < 16) (Nat.pos_of_ne_zero h), List.map_cons]
      rw [ih _ (Nat.div_lt_self (Nat.pos_of_ne_zero h) (by norm_num))]

/-! ### Every pushed byte is an ASCII digit byte -/

theorem decBytes_mem_range {v b : Nat} (hb : b ∈ decBytes v) : 48 ≤ b ∧ b ≤ 57 := by
  rw [decBytes_eq_digits] at hb
  obtain ⟨d, hd, rfl⟩ := List.mem_map.mp hb
  have : d < 10 := Nat.digits_lt_base (by norm_num) hd
  omega

theorem hexDigitByte_mem_charset {d : Nat} (hd : d < 16) : hexDigitByte d ∈ hexCharset := by
  interval_cases d <;> decide

theorem hexBytes_mem_charset {v b : Nat} (hb : b ∈ hexBytes v) : b ∈ hexCharset := by
  rw [hexBytes_eq_digits] at hb
  obtain ⟨d, hd, rfl⟩ := List.mem_map.mp hb
  exact hexDigitByte_mem_charset (Nat.digits_lt_base (by norm_num) hd)

theorem decBytes_mem_charset {v b : Nat} (hb : b ∈ decBytes v) : b ∈ hexCharset := by
  obtain ⟨h1, h2⟩ := decBytes_mem_range hb
  interval_cases b <;> decide

theorem mem_charset_lt_128 {b : Nat} (hb : b ∈ hexCharset) : b < 128 := by
  simp only [hexCharset, List.mem_cons, List.not_mem_nil, or_false] at hb
  omega

/-! ### The `from_utf8` step always succeeds -/

theorem string_from_utf8_eq {bs : List Nat} (h : ∀ b ∈ bs, b < 128) :
    string_from_utf8 bs = some (bs.map Char.ofNat) := by
  rw [string_from_utf8, if_pos]
  rw [List.all_eq_true]
  intro b hb
  simpa using h b hb

theorem to_string_eq (v : Nat) : to_string v = some (decString v) := by
  by_cases h : v = 0
  · subst h; simp [to_string, decString]
  · rw [to_string, if_neg h, decString, if_neg h, string_from_utf8_eq]
    intro b hb
    exact mem_charset_lt_128 (decBytes_mem_charset (List.mem_reverse.mp hb))

theorem to_hex_string_eq (v : Nat) :
    to_hex_string v = some ('0' :: 'x' :: hexDigitsString v) := by
  by_cases h : v = 0
  · subst h; simp [to_hex_string, hexDigitsString]
  · rw [to_hex_string, if_neg h, hexDigitsString, if_neg h, string_from_utf8_eq]
    · rfl
    · intro b hb
      exact mem_charset_lt_128 (hexBytes_mem_charset (List.mem_reverse.mp hb))

theorem to_hex_string_fixed_eq (v n : Nat) :
    to_hex_string_fixed v n = some ('0' :: 'x' :: hexFixedDigits v n) := by
  by_cases h : v = 0
  · subst h; simp [to_hex_string_fixed, hexFixedDigits]
  · rw [to_hex_string_fixed, if_neg h, hexFixedDigits, if_neg h, string_from_utf8_eq]
    · rfl
    · intro b hb
      exact mem_charset_lt_128 (hexBytes_mem_charset (List.mem_reverse.mp hb))

/-! ### Positional value of rendered digit lists -/

theorem foldl_val_init (b : Nat) (L : List Nat) (a : Nat) :
    L.foldl (fun x d => b * x + d) a = a * b ^ L.length + L.foldl (fun x d => b * x + d) 0 := by
  induction L generalizing a with
  | nil => simp
  | cons c t ih =>
    simp only [List.foldl_cons, List.length_cons]
    rw [ih (b * a + c), ih (b * 0 + c)]
    ring

theorem valMSB_cons (b c : Nat) (t : List Nat) :
    valMSB b (c :: t) = c * b ^ t.length + valMSB b t := by
  rw [valMSB, List.foldl_cons, foldl_val_init]
  simp [valMSB]

theorem valMSB_append_singleton (b : Nat) (L : List Nat) (d : Nat) :
    valMSB b (L ++ [d]) = b * valMSB b L + d := by
  simp [valMSB, List.foldl_append]

theorem valMSB_lt (b : Nat) (L : List Nat) (h : ∀ d ∈ L, d < b) :
    valMSB b L < b ^ L.length := by
  induction L with
  | nil => simp [valMSB]
  | cons c t ih =>
    have hc : c < b := h c (by simp)
    have ht : valMSB b t < b ^ t.length := ih (fun d hd => h d (by simp [hd]))
    rw [valMSB_cons, List.length_cons, pow_succ]
    calc c * b ^ t.length + valMSB b t < c * b ^ t.length + b ^ t.length := by omega
      _ = (c + 1) * b ^ t.length := by ring
      _ ≤ b * b ^ t.length := Nat.mul_le_mul_right _ hc
      _ = b ^ t.length * b := by ring

theorem valMSB_reverse (b : Nat) (L : List Nat) :
    valMSB b L.reverse = Nat.ofDigits b L := by
  induction L with
  | nil => simp [valMSB]
  | cons d t ih =>
    rw [List.reverse_cons, valMSB_append_singleton, ih, Nat.ofDigits_cons]
    omega

theorem valMSB_renderedDigits (b v : Nat) : valMSB b (renderedDigits b v) = v := by
  by_cases h : v = 0
  · subst h; simp [renderedDigits, valMSB]
  · rw [renderedDigits, if_neg h, valMSB_reverse, Nat.ofDigits_digits]

theorem renderedDigits_lt {b : Nat} (hb : 1 < b) (v : Nat) :
    ∀ d ∈ renderedDigits b v, d < b := by
  intro d hd
  by_cases h : v = 0
  · subst h; simp [renderedDigits] at hd; omega
  · rw [renderedDigits, if_neg h, List.mem_reverse] at hd
    exact Nat.digits_lt_base hb hd

theorem renderedDigits_ne_nil (b v : Nat) : renderedDigits b v ≠ [] := by
  by_cases h : v = 0
  · subst h; simp [renderedDigits]
  · rw [renderedDigits, if_neg h]
    simp [Nat.digits_ne_nil_iff_ne_zero.mpr h]

/-! ### Character-level facts, settled by finite case analysis -/

theorem char_toNat_dec : ∀ d < 10, (Char.ofNat (48 + d)).toNat = 48 + d := by decide

theorem char_toNat_hex : ∀ d < 16, (Char.ofNat (hexDigitByte d)).toNat = hexDigitByte d := by
  decide

theorem hexCharVal_char : ∀ d < 16, hexCharVal (Char.ofNat (hexDigitByte d)) = d := by decide

theorem char_lt_dec : ∀ d1 < 10, ∀ d2 < 10,
    d1 < d2 → Char.ofNat (48 + d1) < Char.ofNat (48 + d2) := by decide

theorem char_lt_hex : ∀ d1 < 16, ∀ d2 < 16,
    d1 < d2 → Char.ofNat (hexDigitByte d1) < Char.ofNat (hexDigitByte d2) := by decide

theorem char_dec_isDigit : ∀ d < 10, isDecDigitChar (Char.ofNat (48 + d)) := by
  intro d hd
  rw [isDecDigitChar, char_toNat_dec d hd]
  omega

theorem char_hex_isDigit : ∀ d < 16, isHexDigitChar (Char.ofNat (hexDigitByte d)) := by
  intro d hd
  rw [isHexDigitChar, char_toNat_hex d hd, hexDigitByte]
  split <;> omega

theorem char_dec_eq_zero_iff : ∀ d < 10, (Char.ofNat (48 + d) = '0' ↔ d = 0) := by decide

theorem char_hex_eq_zero_iff : ∀ d < 16, (Char.ofNat (hexDigitByte d) = '0' ↔ d = 0) := by
  decide

/-! ### Parsing the rendered strings recovers the value -/

theorem parseDec_map_aux (L : List Nat) (h : ∀ d ∈ L, d < 10) (a : Nat) :
    List.foldl (fun x c => 10 * x + (c.toNat - 48)) a (L.map (fun d => Char.ofNat (48 + d))) =
      List.foldl (fun x d => 10 * x + d) a L := by
  induction L generalizing a with
  | nil => rfl
  | cons c t ih =>
    simp only [List.map_cons, List.foldl_cons]
    rw [char_toNat_dec c (h c (by simp)), Nat.add_sub_cancel_left]
    exact ih (fun d hd => h d (by simp [hd])) _

theorem parseHex_map_aux (L : List Nat) (h : ∀ d ∈ L, d < 16) (a : Nat) :
    List.foldl (fun x c => 16 * x + hexCharVal c) a
        (L.map (fun d => Char.ofNat (hexDigitByte d))) =
      List.foldl (fun x d => 16 * x + d) a L := by
  induction L generalizing a with
  | nil => rfl
  | cons c t ih =>
    simp only [List.map_cons, List.foldl_cons]
    rw [hexCharVal_char c (h c (by simp))]
    exact ih (fun d hd => h d (by simp [hd])) _

theorem decString_eq_rendered (v : Nat) :
    decString v = (renderedDigits 10 v).map (fun d => Char.ofNat (48 + d)) := by
  by_cases h : v = 0
  · subst h; simp [decString, renderedDigits]
  · rw [decString, if_neg h, renderedDigits, if_neg h, decBytes_eq_digits,
      List.map_reverse, List.map_map]
    simp [Function.comp_def]

theorem hexDigitsString_eq_rendered (v : Nat) :
    hexDigitsString v = (renderedDigits 16 v).map (fun d => Char.ofNat (hexDigitByte d)) := by
  by_cases h : v = 0
  · subst h; simp [hexDigitsString, renderedDigits, hexDigitByte]
  · rw [hexDigitsString, if_neg h, renderedDigits, if_neg h, hexBytes_eq_digits,
      List.map_reverse, List.map_map]
    simp [Function.comp_def]

theorem parseDec_decString (v : Nat) : parseDec (decString v) = v := by
  rw [decString_eq_rendered, parseDec,
    parseDec_map_aux _ (renderedDigits_lt (by norm_num) v) 0]
  exact valMSB_renderedDigits 10 v

theorem parseHex_hexDigitsString (v : Nat) : parseHex (hexDigitsString v) = v := by
  rw [hexDigitsString_eq_rendered, parseHex,
    parseHex_map_aux _ (renderedDigits_lt (by norm_num) v) 0]
  exact valMSB_renderedDigits 16 v

/-! ### The leading digit of a non-zero value is non-zero -/

theorem renderedDigits_cons {b v : Nat} (h : v ≠ 0) :
    ∃ d t, renderedDigits b v = d :: t ∧ d ≠ 0 := by
  rw [renderedDigits, if_neg h]
  have hne : Nat.digits b v ≠ [] := Nat.digits_ne_nil_iff_ne_zero.mpr h
  rcases List.eq_nil_or_concat (Nat.digits b v) with h0 | ⟨L, d, hL⟩
  · exact absurd h0 hne
  · refine ⟨d, L.reverse, by rw [hL, List.concat_eq_append, List.reverse_append]; rfl, ?_⟩
    have h2 := Nat.getLast_digit_ne_zero b h
    have h3 : (Nat.digits b v).getLast? = some ((Nat.digits b v).getLast hne) :=
      List.getLast?_eq_getLast_of_ne_nil hne
    have h4 : (Nat.digits b v).getLast? = some d := by rw [hL]; simp
    rw [h3] at h4
    intro hd0
    exact h2 (by rw [Option.some_inj.mp h4, hd0])

/-! ### Numeric order gives lexicographic order at equal lengths -/

theorem lex_of_valMSB_lt (b : Nat) (L1 : List Nat) : ∀ (L2 : List Nat),
    L1.length = L2.length → (∀ d ∈ L1, d < b) → (∀ d ∈ L2, d < b) →
    valMSB b L1 < valMSB b L2 → List.Lex (· < ·) L1 L2 := by
  induction L1 with
  | nil =>
    intro L2 hlen _ _ hv
    cases L2 with
    | nil => exact absurd hv (by simp [valMSB])
    | cons c t => simp at hlen
  | cons c1 t1 ih =>
    intro L2 hlen h1 h2 hv
    cases L2 with
    | nil => simp at hlen
    | cons c2 t2 =>
      have hlen' : t1.length = t2.length := by simpa using hlen
      rcases Nat.lt_trichotomy c1 c2 with hlt | heq | hgt
      · exact List.Lex.rel hlt
      · subst heq
        refine List.Lex.cons (ih t2 hlen' (fun d hd => h1 d (by simp [hd]))
          (fun d hd => h2 d (by simp [hd])) ?_)
        rw [valMSB_cons, valMSB_cons, hlen'] at hv
        omega
      · exfalso
        have hv2 : valMSB b t2 < b ^ t2.length :=
          valMSB_lt b t2 (fun d hd => h2 d (by simp [hd]))
        rw [valMSB_cons, valMSB_cons, hlen'] at hv
        have hmul : (c2 + 1) * b ^ t2.length ≤ c1 * b ^ t2.length :=
          Nat.mul_le_mul_right _ (by omega)
        have hexp : (c2 + 1) * b ^ t2.length = c2 * b ^ t2.length + b ^ t2.length := by ring
        omega

theorem lex_map {f : Nat → Char} {b : Nat}
    (hf : ∀ d1 < b, ∀ d2 < b, d1 < d2 → f d1 < f d2) :
    ∀ {L1 L2 : List Nat}, List.Lex (· < ·) L1 L2 → (∀ d ∈ L1, d < b) →
      (∀ d ∈ L2, d < b) → List.Lex (· < ·) (L1.map f) (L2.map f) := by
  intro L1 L2 hlex
  induction hlex with
  | nil =>
    intro _ _
    simp only [List.map_nil, List.map_cons]
    exact List.Lex.nil
  | @cons a l1 l2 _ ih =>
    intro h1 h2
    simp only [List.map_cons]
    exact List.Lex.cons (ih (fun d hd => h1 d (by simp [hd])) (fun d hd => h2 d (by simp [hd])))
  | @rel a1 l1 a2 l2 hr =>
    intro h1 h2
    simp only [List.map_cons]
    exact List.Lex.rel (hf a1 (h1 a1 (by simp)) a2 (h2 a2 (by simp)) hr)

theorem lex_decString {V1 V2 : Nat} (hlt : V1 < V2)
    (hlen : (decString V1).length = (decString V2).length) :
    List.Lex (· < ·) (decString V1) (decString V2) := by
  rw [decString_eq_rendered, decString_eq_rendered] at hlen ⊢
  have hb1 := renderedDigits_lt (by norm_num : (1 : ℕ) < 10) V1
  have hb2 := renderedDigits_lt (by norm_num : (1 : ℕ) < 10) V2
  refine lex_map char_lt_dec ?_ hb1 hb2
  refine lex_of_valMSB_lt 10 _ _ (by simpa using hlen) hb1 hb2 ?_
  rw [valMSB_renderedDigits, valMSB_renderedDigits]
  exact hlt

theorem lex_hexDigitsString {V1 V2 : Nat} (hlt : V1 < V2)
    (hlen : (hexDigitsString V1).length = (hexDigitsString V2).length) :
    List.Lex (· < ·) (hexDigitsString V1) (hexDigitsString V2) := by
  rw [hexDigitsString_eq_rendered, hexDigitsString_eq_rendered] at hlen ⊢
  have hb1 := renderedDigits_lt (by norm_num : (1 : ℕ) < 16) V1
  have hb2 := renderedDigits_lt (by norm_num : (1 : ℕ) < 16) V2
  refine lex_map char_lt_hex ?_ hb1 hb2
  refine lex_of_valMSB_lt 16 _ _ (by simpa using hlen) hb1 hb2 ?_
  rw [valMSB_renderedDigits, valMSB_renderedDigits]
  exact hlt

/-! ### Length and suffix structure of the fixed-width output -/

theorem hexDigitsString_ne_nil (v : Nat) : hexDigitsString v ≠ [] := by
  rw [hexDigitsString_eq_rendered]
  simp [renderedDigits_ne_nil]

theorem decString_ne_nil (v : Nat) : decString v ≠ [] := by
  rw [decString_eq_rendered]
  simp [renderedDigits_ne_nil]

theorem hexFixedDigits_length (v n : Nat) :
    (hexFixedDigits v n).length = if v = 0 then n else max n (hexDigitsString v).length := by
  by_cases h : v = 0
  · subst h; simp [hexFixedDigits]
  · rw [hexFixedDigits, if_neg h, hexDigitsString, if_neg h, if_neg h]
    by_cases hm : ((hexBytes v).reverse.map Char.ofNat).length < n
    · rw [if_pos hm]
      simp only [List.length_append, List.length_replicate]
      omega
    · rw [if_neg hm]
      omega

theorem hexFixedDigits_of_le (v n : Nat) (h0 : v ≠ 0)
    (hn : n ≤ (hexDigitsString v).length) : hexFixedDigits v n = hexDigitsString v := by
  rw [hexFixedDigits, if_neg h0, hexDigitsString, if_neg h0] at *
  rw [if_neg (by omega)]

theorem hexDigits_suffix_fixed (v n : Nat) (h : v ≠ 0 ∨ n ≠ 0) :
    hexDigitsString v <:+ ('0' :: 'x' :: hexFixedDigits v n) := by
  by_cases h0 : v = 0
  · subst h0
    have hn : n ≠ 0 := h.resolve_left (by simp)
    rw [hexDigitsString, if_pos rfl, hexFixedDigits, if_pos rfl]
    refine ⟨'0' :: 'x' :: List.replicate (n - 1) '0', ?_⟩
    have : List.replicate (n - 1) '0' ++ ['0'] = List.replicate n '0' := by
      rw [← List.replicate_succ' (n - 1) '0']
      congr 1
      omega
    simp [this]
  · rw [hexFixedDigits, if_neg h0]
    have hs : hexDigitsString v = (hexBytes v).reverse.map Char.ofNat := by
      rw [hexDigitsString, if_neg h0]
    rw [← hs]
    by_cases hm : (hexDigitsString v).length < n
    · rw [if_pos hm]
      refine List.IsSuffix.trans
        (List.suffix_append (List.replicate (n - (hexDigitsString v).length) '0')
          (hexDigitsString v)) ?_
      exact (List.suffix_cons 'x' _).trans (List.suffix_cons '0' _)
    · rw [if_neg hm]
      exact (List.suffix_cons 'x' _).trans (List.suffix_cons '0' _)

/-! ### The rendered strings are well-formed numerals -/

theorem decNumeral_decString (v : Nat) : decNumeral (decString v) := by
  refine ⟨?_, decString_ne_nil v, ?_⟩
  · intro c hc
    rw [decString_eq_rendered] at hc
    obtain ⟨d, hd, rfl⟩ := List.mem_map.mp hc
    exact char_dec_isDigit d (renderedDigits_lt (by norm_num) v d hd)
  · by_cases h : v = 0
    · subst h; left; simp [decString]
    · right
      obtain ⟨d, t, ht, hd0⟩ := renderedDigits_cons (b := 10) h
      have hd10 : d < 10 := renderedDigits_lt (by norm_num) v d (by rw [ht]; simp)
      rw [decString_eq_rendered, ht, List.map_cons, List.head?_cons]
      intro hc
      exact hd0 ((char_dec_eq_zero_iff d hd10).mp (Option.some_inj.mp hc))

theorem hexNumeral_hexDigitsString (v : Nat) : hexNumeral (hexDigitsString v) := by
  refine ⟨?_, hexDigitsString_ne_nil v, ?_⟩
  · intro c hc
    rw [hexDigitsString_eq_rendered] at hc
    obtain ⟨d, hd, rfl⟩ := List.mem_map.mp hc
    exact char_hex_isDigit d (renderedDigits_lt (by norm_num) v d hd)
  · by_cases h : v = 0
    · subst h; left; simp [hexDigitsString]
    · right
      obtain ⟨d, t, ht, hd0⟩ := renderedDigits_cons (b := 16) h
      have hd16 : d < 16 := renderedDigits_lt (by norm_num) v d (by rw [ht]; simp)
      rw [hexDigitsString_eq_rendered, ht, List.map_cons, List.head?_cons]
      intro hc
      exact hd0 ((char_hex_eq_zero_iff d hd16).mp (Option.some_inj.mp hc))

/-! ### Claims -/

/-- Claim C1: for every 256-bit value `V`, `to_string V` succeeds; the
result consists only of ASCII digits `'0'`-`'9'`, has no leading zero
unless it is exactly `"0"`, and parsing it back in base 10 yields `V`. -/
theorem c1_to_string_decimal_correct (V : Nat) (hV : V < 2 ^ 256) :
    to_string V = some (decString V) ∧ decNumeral (decString V) ∧
      parseDec (decString V) = V :=
  ⟨to_string_eq V, decNumeral_decString V, parseDec_decString V⟩

/-- Witness for C1 at `V = 12345`. -/
theorem c1_witness :
    to_string 12345 = some (decString 12345) ∧ decNumeral (decString 12345) ∧
      parseDec (decString 12345) = 12345 :=
  c1_to_string_decimal_correct 12345 (by norm_num)

/-- Claim C2: for every 256-bit value `V`, `to_hex_string V` succeeds and is
`"0x"` followed by a lowercase hex numeral with no leading zero; the numeral
is `"0"` exactly when `V = 0`, and parsing it back in base 16 yields `V`. -/
theorem c2_to_hex_string_correct (V : Nat) (hV : V < 2 ^ 256) :
    to_hex_string V = some ('0' :: 'x' :: hexDigitsString V) ∧
      hexNumeral (hexDigitsString V) ∧ (hexDigitsString V = ['0'] ↔ V = 0) ∧
      parseHex (hexDigitsString V) = V := by
  refine ⟨to_hex_string_eq V, hexNumeral_hexDigitsString V, ?_, parseHex_hexDigitsString V⟩
  constructor
  · intro h
    have := parseHex_hexDigitsString V
    rw [h] at this
    simpa [parseHex, hexCharVal] using this.symm
  · intro h; subst h; simp [hexDigitsString]

/-- Witness for C2 at `V = 255`. -/
theorem c2_witness :
    to_hex_string 255 = some ('0' :: 'x' :: hexDigitsString 255) ∧
      hexNumeral (hexDigitsString 255) ∧ (hexDigitsString 255 = ['0'] ↔ 255 = 0) ∧
      parseHex (hexDigitsString 255) = 255 :=
  c2_to_hex_string_correct 255 (by norm_num)

/-- Claim C8: in all three operations every byte pushed into the digit
buffer is one of the sixteen ASCII bytes `0123456789abcdef`, so the
modelled `String::from_utf8` step never fails, for every value and every
width. -/
theorem c8_buffer_bytes_ascii (V : Nat) :
    (∀ b ∈ decBytes V, b ∈ hexCharset) ∧ (∀ b ∈ hexBytes V, b ∈ hexCharset) ∧
      string_from_utf8 (decBytes V).reverse ≠ none ∧
      string_from_utf8 (hexBytes V).reverse ≠ none := by
  refine ⟨fun b hb => decBytes_mem_charset hb, fun b hb => hexBytes_mem_charset hb, ?_, ?_⟩
  · rw [string_from_utf8_eq
      (fun b hb => mem_charset_lt_128 (decBytes_mem_charset (List.mem_reverse.mp hb)))]
    simp
  · rw [string_from_utf8_eq
      (fun b hb => mem_charset_lt_128 (hexBytes_mem_charset (List.mem_reverse.mp hb)))]
    simp

/-- Claim C9: all three operations are total and never fail: for every
value and every width they return `some` string (the digit loops terminate
because division by 10 or 16 strictly decreases a non-zero value, which is
the termination argument of `decBytes` and `hexBytes`). -/
theorem c9_total_no_failure (V n : Nat) :
    (to_string V).isSome = true ∧ (to_hex_string V).isSome = true ∧
      (to_hex_string_fixed V n).isSome = true := by
  rw [to_string_eq, to_hex_string_eq, to_hex_string_fixed_eq]
  exact ⟨rfl, rfl, rfl⟩

/-- Claim C3, counterexample: at `V = 0`, `minDigits = 0` the claim fails:
`to_hex_string 0` is `"0x0"`, whose digits `"0"` are not a suffix of
`to_hex_string_fixed 0 0 = "0x"`. -/
theorem c3_counterexample :
    to_hex_string 0 = some ('0' :: 'x' :: hexDigitsString 0) ∧
      to_hex_string_fixed 0 0 = some ('0' :: 'x' :: hexFixedDigits 0 0) ∧
      hexDigitsString 0 = ['0'] ∧ hexFixedDigits 0 0 = [] ∧
      ¬ hexDigitsString 0 <:+ ('0' :: 'x' :: hexFixedDigits 0 0) := by
  refine ⟨to_hex_string_eq 0, to_hex_string_fixed_eq 0 0, by simp [hexDigitsString],
    by simp [hexFixedDigits], ?_⟩
  simp only [hexDigitsString, hexFixedDigits, if_pos rfl, List.replicate_zero]
  rintro ⟨t, ht⟩
  rcases t with _ | ⟨a, _ | ⟨b, t⟩⟩ <;> simp_all

/-- Claim C3 as amended: for every 256-bit value `V` and width `n`, except
the single case `V = 0 ∧ n = 0`, the fixed-width output ends with the
digits of `to_hex_string V` stripped of the `"0x"` mark. -/
theorem c3_suffix_amended (V n : Nat) (hV : V < 2 ^ 256) (h : V ≠ 0 ∨ n ≠ 0) :
    to_hex_string V = some ('0' :: 'x' :: hexDigitsString V) ∧
      to_hex_string_fixed V n = some ('0' :: 'x' :: hexFixedDigits V n) ∧
      hexDigitsString V <:+ ('0' :: 'x' :: hexFixedDigits V n) :=
  ⟨to_hex_string_eq V, to_hex_string_fixed_eq V n, hexDigits_suffix_fixed V n h⟩

/-- Witness for the amended C3 at `V = 255`, `n = 4`. -/
theorem c3_witness :
    to_hex_string 255 = some ('0' :: 'x' :: hexDigitsString 255) ∧
      to_hex_string_fixed 255 4 = some ('0' :: 'x' :: hexFixedDigits 255 4) ∧
      hexDigitsString 255 <:+ ('0' :: 'x' :: hexFixedDigits 255 4) :=
  c3_suffix_amended 255 4 (by norm_num) (Or.inl (by norm_num))

/-- Claim C4: for every `n`, `to_hex_string_fixed 0 n` is `"0x"` followed by
exactly `n` `'0'` characters; in particular `n = 0` gives the bare `"0x"`
and `n = 8` gives `"0x00000000"`. -/
theorem c4_fixed_zero_pad (n : Nat) :
    to_hex_string_fixed 0 n = some ('0' :: 'x' :: List.replicate n '0') ∧
      to_hex_string_fixed 0 0 = some ['0', 'x'] ∧
      to_hex_string_fixed 0 8 = some ['0', 'x', '0', '0', '0', '0', '0', '0', '0', '0'] := by
  refine ⟨by simp [to_hex_string_fixed], by simp [to_hex_string_fixed], ?_⟩
  simp [to_hex_string_fixed, List.replicate]

/-- Claim C5: for every non-zero 256-bit value `V` and width `n` at most the
minimal hex digit count of `V`, the fixed-width output is exactly the
minimal digits after `"0x"`: unpadded and untruncated. -/
theorem c5_no_truncation (V n : Nat) (hV : V < 2 ^ 256) (h0 : V ≠ 0)
    (hn : n ≤ (hexDigitsString V).length) :
    to_hex_string_fixed V n = some ('0' :: 'x' :: hexDigitsString V) := by
  rw [to_hex_string_fixed_eq, hexFixedDigits_of_le V n h0 hn]

/-- Witness for C5 at `V = 0x12345`, `n = 2`: `"0x12345"`, no truncation. -/
theorem c5_witness :
    to_hex_string_fixed 74565 2 = some ('0' :: 'x' :: hexDigitsString 74565) :=
  c5_no_truncation 74565 2 (by norm_num) (by norm_num)
    (by simp [hexDigitsString, hexBytes, hexDigitByte])

/-- Claim C6: for every 256-bit value `V` and width `n`, the length of
`to_hex_string_fixed V n` minus the two mark characters is at least `n`:
`minDigits` is a lower bound on the digit count, never an upper bound. -/
theorem c6_min_digits_lower_bound (V n : Nat) (hV : V < 2 ^ 256) :
    to_hex_string_fixed V n = some ('0' :: 'x' :: hexFixedDigits V n) ∧
      n ≤ ('0' :: 'x' :: hexFixedDigits V n).length - 2 := by
  refine ⟨to_hex_string_fixed_eq V n, ?_⟩
  have h := hexFixedDigits_length V n
  simp only [List.length_cons]
  split at h <;> omega

/-- Witness for C6 at `V = 255`, `n = 4`. -/
theorem c6_witness :
    to_hex_string_fixed 255 4 = some ('0' :: 'x' :: hexFixedDigits 255 4) ∧
      4 ≤ ('0' :: 'x' :: hexFixedDigits 255 4).length - 2 :=
  c6_min_digits_lower_bound 255 4 (by norm_num)

/-- Claim C7: for 256-bit values `V1 < V2` whose decimal (resp. hex)
strings have equal length, the string of `V1` is lexicographically smaller
than the string of `V2`. -/
theorem c7_monotonic_lex (V1 V2 : Nat) (h1 : V1 < 2 ^ 256) (h2 : V2 < 2 ^ 256)
    (hlt : V1 < V2) :
    to_string V1 = some (decString V1) ∧ to_string V2 = some (decString V2) ∧
      to_hex_string V1 = some ('0' :: 'x' :: hexDigitsString V1) ∧
      to_hex_string V2 = some ('0' :: 'x' :: hexDigitsString V2) ∧
      ((decString V1).length = (decString V2).length →
        List.Lex (· < ·) (decString V1) (decString V2)) ∧
      (('0' :: 'x' :: hexDigitsString V1).length = ('0' :: 'x' :: hexDigitsString V2).length →
        List.Lex (· < ·) ('0' :: 'x' :: hexDigitsString V1)
          ('0' :: 'x' :: hexDigitsString V2)) := by
  refine ⟨to_string_eq V1, to_string_eq V2, to_hex_string_eq V1, to_hex_string_eq V2,
    fun hlen => lex_decString hlt hlen, fun hlen => ?_⟩
  exact List.Lex.cons (List.Lex.cons (lex_hexDigitsString hlt (by simpa using hlen)))

/-- Witness for C7 at `V1 = 3`, `V2 = 7`: `"3" < "7"` and `"0x3" < "0x7"`. -/
theorem c7_witness :
    List.Lex (· < ·) (decString 3) (decString 7) ∧
      List.Lex (· < ·) ('0' :: 'x' :: hexDigitsString 3)
        ('0' :: 'x' :: hexDigitsString 7) := by
  have h := c7_monotonic_lex 3 7 (by norm_num) (by norm_num) (by norm_num)
  exact ⟨h.2.2.2.2.1 (by simp [decString, decBytes]),
    h.2.2.2.2.2 (by simp [hexDigitsString, hexBytes, hexDigitByte])⟩

/-- Claim C10: the length of `to_hex_string_fixed V n` is `2 + max n h`
for non-zero `V` (`h` the minimal hex digit count) but exactly `2 + n` for
`V = 0`; and for non-zero `V`, width 0 gives exactly `to_hex_string V`. -/
theorem c10_length_formula (V n : Nat) (hV : V < 2 ^ 256) :
    to_hex_string_fixed V n = some ('0' :: 'x' :: hexFixedDigits V n) ∧
      ('0' :: 'x' :: hexFixedDigits V n).length =
        (if V = 0 then 2 + n else 2 + max n (hexDigitsString V).length) ∧
      (V ≠ 0 → to_hex_string_fixed V 0 = to_hex_string V) := by
  refine ⟨to_hex_string_fixed_eq V n, ?_, fun h0 => ?_⟩
  · have h := hexFixedDigits_length V n
    simp only [List.length_cons]
    split at h <;> split <;> omega
  · rw [to_hex_string_fixed_eq, to_hex_string_eq,
      hexFixedDigits_of_le V 0 h0 (Nat.zero_le _)]

/-- Witness for C10 at `V = 255`, `n = 4`. -/
theorem c10_witness :
    to_hex_string_fixed 255 4 = some ('0' :: 'x' :: hexFixedDigits 255 4) ∧
      ('0' :: 'x' :: hexFixedDigits 255 4).length =
        (if 255 = 0 then 2 + 4 else 2 + max 4 (hexDigitsString 255).length) ∧
      (255 ≠ 0 → to_hex_string_fixed 255 0 = to_hex_string 255) :=
  c10_length_formula 255 4 (by norm_num)

end StringsUtils
